import Mathlib

/-!
Shallow embedding of the csv-query-tool repository (src/core/csv_processor.py
and the sort engine of the spec) together with proofs about its query
sub-language: condition / aggregation / sort parsing, filtering, aggregation
and sorting.

Modelling conventions:
* Python `str` is Lean `String`; Python `float` values are modelled as exact
  rationals `ℚ` (every claim under scrutiny only involves decimal literals,
  where `float` arithmetic and exact rational arithmetic agree on the
  comparisons performed).
* `DataRow` (a `dict[str, str]` whose values may be `None`) is modelled as an
  association list `List (String × Option String)`; a key that is absent from
  the list is a missing column, a key bound to `none` is a null cell.
* Python exceptions raised by the engine are modelled with `Except QueryError`;
  each `raise ValueError(...)` site has its own `QueryError` constructor whose
  payload carries the semantic content of the message (offending token,
  supported token set, sorted available columns).
* `float(s)` (Python's text-to-float conversion) is modelled by `pyFloat?`,
  covering signed decimal literals with optional fraction and exponent after
  stripping surrounding whitespace; the exotic inputs float() additionally
  accepts (`inf`, `nan`, underscore separators) play no role in any claim.
* Logging calls are pure I/O and are omitted.
-/

/-! ### Python string primitives -/

/-- Model of Python `str.strip()` on a character list: drop whitespace from
both ends. -/
def pyStrip (cs : List Char) : List Char :=
  ((cs.dropWhile Char.isWhitespace).reverse.dropWhile Char.isWhitespace).reverse

/-- Whether `cs` starts with `pat` (helper for substring search). -/
def startsWithL : List Char → List Char → Bool
  | _, [] => true
  | [], _ :: _ => false
  | c :: cs, p :: ps => c == p && startsWithL cs ps

/-- Model of Python's `pat in s` substring test, on character lists. -/
def hasSubL : List Char → List Char → Bool
  | cs, pat =>
    match cs with
    | [] => startsWithL [] pat
    | _ :: rest => startsWithL cs pat || hasSubL rest pat

/-- Model of Python `s.find(pat)` for a single-character pattern: index of the
first occurrence, if any. -/
def findCharIdx (cs : List Char) (c : Char) : Option Nat :=
  cs.findIdx? (· == c)

/-- Model of Python `s.replace(".", "", 1)`: remove the first dot, if any. -/
def removeFirstDot : List Char → List Char
  | [] => []
  | c :: cs => if c == '.' then cs else c :: removeFirstDot cs

/-- Model of Python `str.isdigit()`: non-empty and all characters digits. -/
def pyIsDigit (cs : List Char) : Bool :=
  !cs.isEmpty && cs.all Char.isDigit

/-- Substring test lifted to `String` (Python `pat in s`). -/
def hasSub (s pat : String) : Bool :=
  hasSubL s.data pat.data

/-! ### Model of Python float() on decimal literals -/

/-- Digits to a natural number, most significant first. -/
def digitsToNat (cs : List Char) : Nat :=
  cs.foldl (fun n c => 10 * n + (c.toNat - '0'.toNat)) 0

/-- Parse the optional exponent part (after `e`/`E`); `none` if malformed. -/
def parseExp (cs : List Char) : Option Int :=
  match cs with
  | [] => none
  | _ =>
    let (sign, rest) :=
      match cs with
      | '+' :: r => ((1 : Int), r)
      | '-' :: r => ((-1 : Int), r)
      | r => ((1 : Int), r)
    let ds := rest.takeWhile Char.isDigit
    if ds.isEmpty || !(rest.drop ds.length).isEmpty then none
    else some (sign * (digitsToNat ds : Int))

/-- Parse an unsigned decimal literal `digits[.digits][(e|E)[sign]digits]`. -/
def parseUnsigned (cs : List Char) : Option ℚ :=
  let intDs := cs.takeWhile Char.isDigit
  let rest₁ := cs.drop intDs.length
  let (fracDs, rest₂) :=
    match rest₁ with
    | '.' :: r => (r.takeWhile Char.isDigit, (r.takeWhile Char.isDigit).length + 1)
    | _ => ([], 0)
  let rest₃ := rest₁.drop rest₂
  if intDs.isEmpty && fracDs.isEmpty then none
  else
    let mant : ℚ := (digitsToNat intDs : ℚ) + (digitsToNat fracDs : ℚ) / (10 ^ fracDs.length : ℚ)
    match rest₃ with
    | [] => some mant
    | 'e' :: r => (parseExp r).map (fun e => mant * (10 : ℚ) ^ e)
    | 'E' :: r => (parseExp r).map (fun e => mant * (10 : ℚ) ^ e)
    | _ => none

/-- Model of Python `float(s)` on decimal literals: strip whitespace, optional
sign, then an unsigned decimal literal; `none` when the conversion raises
`ValueError`. -/
def pyFloat? (s : String) : Option ℚ :=
  match pyStrip s.data with
  | [] => none
  | '+' :: r => parseUnsigned r
  | '-' :: r => (parseUnsigned r).map Neg.neg
  | r => parseUnsigned r

/-! ### Data model: rows and datasets -/

/-- A `DataRow`: association list from column name to nullable cell. -/
abbrev Row := List (String × Option String)

/-- The key set of a row (Python `row.keys()`). -/
def rowKeys (r : Row) : List String := r.map Prod.fst

/-- Model of `DataRow.get_numeric`: the numeric value of `row[key]`, or `none`
when the key is missing, the cell is null, or float conversion fails. -/
def getNumeric (r : Row) (key : String) : Option ℚ :=
  match r.lookup key with
  | some (some s) => pyFloat? s
  | _ => none

/-! ### Operators, operations and errors -/

/-- Supported filter operators (`FilterOperator`). -/
inductive FilterOperator
  | equal
  | greater
  | less
deriving DecidableEq

/-- Supported aggregation operations (`AggregationOperation`). -/
inductive AggregationOperation
  | avg
  | min
  | max
deriving DecidableEq

/-- Sort directions (`asc` / `desc`), from the sort grammar of the spec. -/
inductive SortDirection
  | asc
  | desc
deriving DecidableEq

/-- The token of a filter operator (Python enum value). -/
def FilterOperator.token : FilterOperator → String
  | .equal => "="
  | .greater => ">"
  | .less => "<"

/-- The token of an aggregation operation (Python enum value). -/
def AggregationOperation.token : AggregationOperation → String
  | .avg => "avg"
  | .min => "min"
  | .max => "max"

/-- The supported filter-operator tokens, in enum order (`["=", ">", "<"]`). -/
def supportedOperators : List String := ["=", ">", "<"]

/-- The supported aggregation-operation tokens (`["avg", "min", "max"]`). -/
def supportedOperations : List String := ["avg", "min", "max"]

/-- The compound operators rejected up front by the condition parser, in the
order the Python code checks them. -/
def invalidOperators : List String := ["<>", "!=", "<=", ">=", "=="]

/-- Structured model of every `ValueError` the engine can raise; each
constructor corresponds to one raise site and carries the semantic content of
its message. -/
inductive QueryError
  /-- "Неподдерживаемый оператор ..." — compound operator in a condition. -/
  | unsupportedOperator (op : String) (supported : List String)
  /-- "Не найден поддерживаемый оператор ..." — no operator in a condition. -/
  | noOperator (input : String) (supported : List String)
  /-- "Не указано имя колонки для фильтрации". -/
  | noFilterColumn
  /-- "Не указано значение для сравнения". -/
  | noFilterValue
  /-- "Не удалось разобрать условие ..." (documented as unreachable). -/
  | unparsableCondition (input : String)
  /-- "Пустая строка агрегации ...". -/
  | emptyAggregation
  /-- "Неверный формат строки агрегации ..." — no `=` separator. -/
  | aggNoSeparator (input : String) (supported : List String)
  /-- "Не указано имя колонки для агрегации". -/
  | aggNoColumn
  /-- "Не указана операция агрегации ...". -/
  | aggNoOperation (supported : List String)
  /-- "Неподдерживаемая операция агрегации ...". -/
  | unsupportedOperation (op : String) (supported : List String)
  /-- "Колонка ... не найдена. Доступные колонки: ..." (sorted). -/
  | unknownColumn (column : String) (available : List String)
  /-- "Непредвиденная ошибка ..." — the generic `except Exception` wrapper. -/
  | unexpected
  /-- Empty sort expression (sort grammar, modelled from the spec). -/
  | emptySort
  /-- Sort expression without a `=` separator (spec sort grammar). -/
  | sortNoSeparator (input : String) (supported : List String)
  /-- Sort expression with an empty column part (spec sort grammar). -/
  | sortNoColumn
  /-- Sort expression with an empty direction part (spec sort grammar). -/
  | sortNoDirection (supported : List String)
  /-- Unsupported sort direction token (spec sort grammar). -/
  | unsupportedDirection (tok : String) (supported : List String)
deriving DecidableEq

deriving instance DecidableEq for Except

/-- A parsed filter condition (`FilterCondition`). -/
structure FilterCondition where
  column : String
  operator : FilterOperator
  value : String
deriving DecidableEq

/-- A parsed aggregation (`Aggregation`). -/
structure Aggregation where
  column : String
  operation : AggregationOperation
deriving DecidableEq

/-- A parsed sort specification (`SortSpec`, from the spec's sort grammar). -/
structure SortSpec where
  column : String
  direction : SortDirection
deriving DecidableEq

/-! ### Condition parsing (`FilterCondition.from_string`) -/

/-- Scan the supported operators over the (stripped) condition in the order
the Python loop does — `sorted(supported_operators, key=len, reverse=True)` is
the identity on `["=", ">", "<"]` since all tokens have length 1 and Python's
sort is stable — and split at the first occurrence of the first operator
found. -/
def findOperatorSplit (t : List Char) : Option (FilterOperator × List Char × List Char) :=
  match findCharIdx t '=' with
  | some i => some (.equal, t.take i, t.drop (i + 1))
  | none =>
    match findCharIdx t '>' with
    | some i => some (.greater, t.take i, t.drop (i + 1))
    | none =>
      match findCharIdx t '<' with
      | some i => some (.less, t.take i, t.drop (i + 1))
      | none => none

/-- Model of `FilterCondition.from_string`: `ok none` on empty/whitespace-only
input, otherwise parse `<column><operator><value>` after rejecting compound
operators; errors model the `ValueError`s raised. -/
def FilterCondition.fromString (s : String) : Except QueryError (Option FilterCondition) :=
  let t := pyStrip s.data
  if t.isEmpty then .ok none
  else
    match invalidOperators.find? (fun op => hasSubL t op.data) with
    | some op => .error (.unsupportedOperator op supportedOperators)
    | none =>
      if !supportedOperators.any (fun op => hasSubL t op.data) then
        .error (.noOperator (String.mk t) supportedOperators)
      else
        match findOperatorSplit t with
        | some (op, left, right) =>
          let column := pyStrip left
          let value := pyStrip right
          if column.isEmpty then .error .noFilterColumn
          else if value.isEmpty then .error .noFilterValue
          else .ok (some ⟨String.mk column, op, String.mk value⟩)
        | none => .error (.unparsableCondition (String.mk t))

/-! ### Aggregation parsing (`Aggregation.from_string`) -/

/-- Model of Python `str.lower()` (ASCII case folding suffices for the tokens
compared against). -/
def pyLower (s : String) : String := String.mk (s.data.map Char.toLower)

/-- Model of `Aggregation.from_string`: parse `<column>=<operation>` with
operation in `{avg, min, max}` (case-insensitive); empty input is an error.
The re-raise bookkeeping of the Python `except ValueError` wrapper only
rewrites messages and is subsumed by the structured errors. -/
def Aggregation.fromString (s : String) : Except QueryError Aggregation :=
  if (pyStrip s.data).isEmpty then .error .emptyAggregation
  else if !hasSubL s.data ['='] then .error (.aggNoSeparator s supportedOperations)
  else
    match findCharIdx s.data '=' with
    | none => .error (.aggNoSeparator s supportedOperations)
    | some i =>
      let column := pyStrip (s.data.take i)
      let opStr := pyStrip (s.data.drop (i + 1))
      if column.isEmpty then .error .aggNoColumn
      else if opStr.isEmpty then .error (.aggNoOperation supportedOperations)
      else
        let low := pyLower (String.mk opStr)
        if low = "avg" then .ok ⟨String.mk column, .avg⟩
        else if low = "min" then .ok ⟨String.mk column, .min⟩
        else if low = "max" then .ok ⟨String.mk column, .max⟩
        else .error (.unsupportedOperation (String.mk opStr) supportedOperations)

/-! ### Value comparison (`_compare_numeric`, `_compare_strings`) -/

/-- The epsilon used for float equality, `1e-9`, as an exact rational. -/
def floatEpsilon : ℚ := 1 / 1000000000

/-- Model of `DataProcessor._compare_numeric`. -/
def compareNumeric (value : ℚ) (op : FilterOperator) (other : ℚ) : Bool :=
  match op with
  | .equal => |value - other| < floatEpsilon
  | .greater => value > other
  | .less => value < other

/-- Model of `DataProcessor._compare_strings`; a null cell compares false under
every operator. Python compares strings lexicographically by code point, which
is exactly the `String` order. -/
def compareStrings (value : Option String) (op : FilterOperator) (other : String) : Bool :=
  match value with
  | none => false
  | some v =>
    match op with
    | .equal => v == other
    | .greater => other < v
    | .less => v < other

/-! ### Filter engine (`DataProcessor.filter_data`) -/

/-- The per-row decision of the filtering loop: skip rows lacking the column;
if the cell is numeric, try to parse the condition's value — on success decide
numerically (and do not fall through), on failure fall through to the string
comparison; otherwise compare as strings. -/
def rowMatches (cond : FilterCondition) (row : Row) : Bool :=
  match row.lookup cond.column with
  | none => false
  | some cell =>
    match cell.bind pyFloat? with
    | some numValue =>
      match pyFloat? cond.value with
      | some filterNum => compareNumeric numValue cond.operator filterNum
      | none => compareStrings cell cond.operator cond.value
    | none => compareStrings cell cond.operator cond.value

/-- The filtering loop: accumulates the matched rows (as value copies) and the
`has_matches` flag exactly as the Python loop does. -/
def filterLoop (cond : FilterCondition) (acc : List Row × Bool) : List Row → List Row × Bool
  | [] => acc
  | row :: rest =>
    filterLoop cond (if rowMatches cond row then (acc.1 ++ [row], true) else acc) rest

/-- The `first_value` used by the backwards-compatibility fallback: the cell of
the first row containing the column, defaulting to the empty string. -/
def firstValue (cond : FilterCondition) (data : List Row) : Option String :=
  match data.find? (fun r => (r.lookup cond.column).isSome) with
  | some r => (r.lookup cond.column).getD (some "")
  | none => some ""

/-- The backwards-compatibility fallback of `filter_data` (lines 290-301):
when the loop found no matches yet accumulated rows, a non-digit-looking first
value together with a non-equality operator downgrades the result to `[]`.
The main theorems show its guard can never fire. -/
def applyFallback (cond : FilterCondition) (data : List Row) (result : List Row)
    (hasMatches : Bool) : List Row :=
  if !hasMatches && !result.isEmpty then
    let fv := firstValue cond data
    let fvTruthy := match fv with
      | none => false
      | some s => !s.isEmpty
    let looksNumeric := match fv with
      | none => false
      | some s => pyIsDigit (removeFirstDot (pyStrip s.data))
    if fvTruthy && !looksNumeric && !(cond.operator = FilterOperator.equal) then []
    else result
  else result

/-- Model of `DataProcessor.filter_data` (the dataset is passed explicitly in
place of `self._data`): blank conditions return a copy of the data, otherwise
parse, short-circuit on an empty dataset, validate the column against the
first row's key set, run the loop and apply the fallback. -/
def filterData (data : List Row) (condition : Option String) : Except QueryError (List Row) :=
  match condition with
  | none => .ok data
  | some c =>
    if (pyStrip c.data).isEmpty then .ok data
    else
      match FilterCondition.fromString c with
      | .error e => .error e
      | .ok none =>
        -- Unreachable: `from_string` returns `None` only on blank input, which
        -- was already handled; in Python this would hit the generic
        -- `except Exception` wrapper via an `AttributeError`.
        .error .unexpected
      | .ok (some cond) =>
        if data.isEmpty then .ok []
        else
          let available := rowKeys data.head!
          if !available.contains cond.column then
            .error (.unknownColumn cond.column ((available.dedup).insertionSort (· ≤ ·)))
          else
            let (result, hasMatches) := filterLoop cond ([], false) data
            .ok (applyFallback cond data result hasMatches)

/-! ### Aggregation engine (`DataProcessor.aggregate_data`) -/

/-- The result dictionary of a successful aggregation. -/
structure AggregationResult where
  operation : AggregationOperation
  column : String
  value : ℚ
  count : Nat
deriving DecidableEq

/-- The value-collection loop of `aggregate_data`: accumulates the parsed
numeric cells in order and the count of non-numeric cells (rows lacking the
column are skipped; null or whitespace-only cells are skipped silently; cells
failing float conversion increment the non-numeric count). -/
def collectValues (column : String) (acc : List ℚ × Nat) : List Row → List ℚ × Nat
  | [] => acc
  | row :: rest =>
    let acc' :=
      match row.lookup column with
      | none => acc
      | some none => acc
      | some (some s) =>
        if (pyStrip s.data).isEmpty then acc
        else
          match pyFloat? s with
          | some q => (acc.1 ++ [q], acc.2)
          | none => (acc.1, acc.2 + 1)
    collectValues column acc' rest

/-- The aggregated value over a non-empty list of survivors: mean for AVG,
Python `min(values)` / `max(values)` for MIN / MAX. -/
def aggValue (op : AggregationOperation) (v : ℚ) (vs : List ℚ) : ℚ :=
  match op with
  | .avg => (v + vs.sum) / (1 + vs.length : ℚ)
  | .min => vs.foldl Min.min v
  | .max => vs.foldl Max.max v

/-- Model of `DataProcessor.aggregate_data`: `ok none` on empty input (before
any parsing) or when no cell of the column survives numeric coercion;
otherwise the result record with the count of survivors and the aggregate of
their values. -/
def aggregateData (data : List Row) (aggregation : String) :
    Except QueryError (Option AggregationResult) :=
  if data.isEmpty then .ok none
  else
    match Aggregation.fromString aggregation with
    | .error e => .error e
    | .ok agg =>
      let available := rowKeys data.head!
      if !available.contains agg.column then
        .error (.unknownColumn agg.column ((available.dedup).insertionSort (· ≤ ·)))
      else
        match collectValues agg.column ([], 0) data with
        | ([], _) => .ok none
        | (v :: vs, _) =>
          .ok (some { operation := agg.operation, column := agg.column,
                      value := aggValue agg.operation v vs, count := (v :: vs).length })

/-! ### Sort engine (modelled from the spec) -/

/-- Modelled from the spec: the sort grammar of §4.1. `DataProcessor.sort_data`
is invoked by `main` and exercised by the test suite, but its definition is
not among the source files, so the sort engine is reconstructed from §4.1/§4.5
of the specification. Grammar: `<column>=<direction>` with direction in
`{asc, desc}` (case-insensitive), same splitting discipline as aggregation;
empty input is an error; an unsupported direction is an error naming the
offending token and the supported set. -/
def parseSortSpec (s : String) : Except QueryError SortSpec :=
  if (pyStrip s.data).isEmpty then .error .emptySort
  else
    match findCharIdx s.data '=' with
    | none => .error (.sortNoSeparator s ["asc", "desc"])
    | some i =>
      let column := pyStrip (s.data.take i)
      let dirStr := pyStrip (s.data.drop (i + 1))
      if column.isEmpty then .error .sortNoColumn
      else if dirStr.isEmpty then .error (.sortNoDirection ["asc", "desc"])
      else
        let low := pyLower (String.mk dirStr)
        if low = "asc" then .ok ⟨String.mk column, .asc⟩
        else if low = "desc" then .ok ⟨String.mk column, .desc⟩
        else .error (.unsupportedDirection (String.mk dirStr) ["asc", "desc"])

/-- Modelled from the spec: the dataset's column set (§3: every row's key set
is a subset of the declared column set; the engine sees no header, so the
column set is taken as the union of the rows' key sets). -/
def hasColumn (data : List Row) (col : String) : Bool :=
  data.any (fun r => (rowKeys r).contains col)

/-- Modelled from the spec: the sorted list of available columns used in the
unknown-column error message. -/
def availableColumns (data : List Row) : List String :=
  (((data.flatMap rowKeys).dedup)).insertionSort (· ≤ ·)

/-- Modelled from the spec (§4.5): a column is compared numerically when its
values across the dataset are numeric-parseable (null/missing cells do not
block numeric mode — they are mapped to a default key instead). -/
def numericMode (data : List Row) (col : String) : Bool :=
  data.all (fun r =>
    match r.lookup col with
    | some (some s) => (pyFloat? s).isSome
    | _ => true)

/-- Modelled from the spec (§4.5): the numeric sort key of a row; missing or
null cells map to `0.0` to keep the sort total. -/
def numKey (col : String) (r : Row) : ℚ :=
  match r.lookup col with
  | some (some s) => (pyFloat? s).getD 0
  | _ => 0

/-- Modelled from the spec (§4.5): the textual sort key of a row — the
lower-cased cell, with missing/null cells sorting as the empty string. -/
def strKey (col : String) (r : Row) : String :=
  match r.lookup col with
  | some (some s) => pyLower s
  | _ => ""

/-- The ascending comparator on rows induced by a sort key. -/
def rowLe {K : Type} [LinearOrder K] (key : Row → K) (a b : Row) : Prop :=
  key a ≤ key b

instance rowLeDecidable {K : Type} [LinearOrder K] (key : Row → K) :
    DecidableRel (rowLe key) :=
  fun a b => inferInstanceAs (Decidable (key a ≤ key b))

/-- A stable ascending sort of the rows by a key into a linear order
(insertion sort: a later row is inserted strictly after every earlier row
whose key is less than or equal to its own). -/
def sortByKey {K : Type} [LinearOrder K] (key : Row → K) (data : List Row) : List Row :=
  data.insertionSort (rowLe key)

/-- A stable descending sort by a key (the ascending comparator reversed,
modelled by sorting with the key taken in the dual order). -/
def sortByKeyDesc {K : Type} [LinearOrder K] (key : Row → K) (data : List Row) : List Row :=
  data.insertionSort (rowLe (fun a => OrderDual.toDual (key a)))

/-- Modelled from the spec: `DataProcessor.sort_data` (§4.5) — parse the sort
expression, validate the column against the dataset's column set (failing like
filter/aggregate, with the sorted available columns), then stably sort by the
numeric key when the column is numeric-parseable across the dataset and by the
lower-cased textual key otherwise; DESC reverses the comparator. -/
def sortData (data : List Row) (sortStr : String) : Except QueryError (List Row) :=
  match parseSortSpec sortStr with
  | .error e => .error e
  | .ok spec =>
    if !hasColumn data spec.column then
      .error (.unknownColumn spec.column (availableColumns data))
    else
      .ok (match spec.direction, numericMode data spec.column with
        | .asc, true => sortByKey (numKey spec.column) data
        | .asc, false => sortByKey (strKey spec.column) data
        | .desc, true => sortByKeyDesc (numKey spec.column) data
        | .desc, false => sortByKeyDesc (strKey spec.column) data)

/-! ### Lemmas about the string primitives -/

theorem startsWithL_iff (pat l : List Char) :
    startsWithL l pat = true ↔ ∃ b, l = pat ++ b := by
  induction pat generalizing l with
  | nil => simp [startsWithL]
  | cons p ps ih =>
    cases l with
    | nil => simp [startsWithL]
    | cons c cs =>
      simp only [startsWithL, Bool.and_eq_true, beq_iff_eq, ih, List.cons_append,
        List.cons.injEq]
      constructor
      · rintro ⟨rfl, b, rfl⟩
        exact ⟨b, rfl, rfl⟩
      · rintro ⟨b, rfl, rfl⟩
        exact ⟨rfl, b, rfl⟩

theorem hasSubL_iff (pat l : List Char) :
    hasSubL l pat = true ↔ ∃ a b, l = a ++ pat ++ b := by
  induction l with
  | nil =>
    simp only [hasSubL, startsWithL_iff]
    constructor
    · rintro ⟨b, h⟩
      exact ⟨[], b, h⟩
    · rintro ⟨a, b, h⟩
      rcases List.append_eq_nil.mp h.symm with ⟨hap, hb⟩
      rcases List.append_eq_nil.mp hap with ⟨ha, hp⟩
      exact ⟨[], by simp [hp]⟩
  | cons c cs ih =>
    simp only [hasSubL, Bool.or_eq_true, startsWithL_iff, ih]
    constructor
    · rintro (⟨b, h⟩ | ⟨a, b, h⟩)
      · exact ⟨[], b, by simp [h]⟩
      · exact ⟨c :: a, b, by simp [h]⟩
    · rintro ⟨a, b, h⟩
      cases a with
      | nil => exact Or.inl ⟨b, by simpa using h⟩
      | cons a0 as =>
        injection h with h1 h2
        exact Or.inr ⟨as, b, h2⟩

theorem hasSubL_ne_nil {pat l : List Char} (hne : pat ≠ [])
    (h : hasSubL l pat = true) : l ≠ [] := by
  rcases (hasSubL_iff pat l).mp h with ⟨a, b, rfl⟩
  intro hnil
  simp only [List.append_eq_nil] at hnil
  exact hne hnil.1.2

theorem hasSubL_dropWhile (p : Char → Bool) {pat : List Char} (l : List Char)
    (hne : pat ≠ []) (hall : pat.all (fun c => !p c) = true)
    (h : hasSubL l pat = true) : hasSubL (l.dropWhile p) pat = true := by
  induction l with
  | nil => simpa using h
  | cons c cs ih =>
    rw [List.dropWhile_cons]
    split
    · rename_i hpc
      apply ih
      rcases Bool.or_eq_true .. ▸ (show (startsWithL (c :: cs) pat || hasSubL cs pat) = true from h) with h1 | h2
      · rcases (startsWithL_iff pat (c :: cs)).mp h1 with ⟨b, hb⟩
        cases pat with
        | nil => exact absurd rfl hne
        | cons q qs =>
          have hq : q = c := (List.cons.injEq .. ▸ hb).1.symm
          have := (List.all_eq_true.mp hall) q (by simp)
          rw [hq, hpc] at this
          simp at this
      · exact h2
    · exact h

theorem hasSubL_reverse {pat l : List Char} (h : hasSubL l pat = true) :
    hasSubL l.reverse pat.reverse = true := by
  rcases (hasSubL_iff pat l).mp h with ⟨a, b, rfl⟩
  exact (hasSubL_iff pat.reverse _).mpr ⟨b.reverse, a.reverse, by simp⟩

theorem hasSubL_pyStrip {pat : List Char} (l : List Char) (hne : pat ≠ [])
    (hall : pat.all (fun c => !c.isWhitespace) = true)
    (h : hasSubL l pat = true) : hasSubL (pyStrip l) pat = true := by
  have hne' : pat.reverse ≠ [] := by simpa using hne
  have hall' : pat.reverse.all (fun c => !c.isWhitespace) = true := by
    simpa using hall
  have h1 := hasSubL_dropWhile Char.isWhitespace l hne hall h
  have h2 := hasSubL_reverse h1
  have h3 := hasSubL_dropWhile Char.isWhitespace _ hne' hall' h2
  have h4 := hasSubL_reverse h3
  rw [List.reverse_reverse] at h4
  exact h4

theorem pyStrip_decomposition (l : List Char) :
    ∃ u v, l = u ++ pyStrip l ++ v := by
  refine ⟨l.takeWhile Char.isWhitespace,
    ((l.dropWhile Char.isWhitespace).reverse.takeWhile Char.isWhitespace).reverse, ?_⟩
  have hd : pyStrip l ++
      ((l.dropWhile Char.isWhitespace).reverse.takeWhile Char.isWhitespace).reverse
      = l.dropWhile Char.isWhitespace := by
    rw [pyStrip, ← List.reverse_append, List.takeWhile_append_dropWhile,
      List.reverse_reverse]
  rw [List.append_assoc, hd, List.takeWhile_append_dropWhile]

theorem hasSubL_of_pyStrip {pat l : List Char}
    (h : hasSubL (pyStrip l) pat = true) : hasSubL l pat = true := by
  rcases pyStrip_decomposition l with ⟨u, v, hl⟩
  rcases (hasSubL_iff pat (pyStrip l)).mp h with ⟨a, b, hs⟩
  exact (hasSubL_iff pat l).mpr ⟨u ++ a, b ++ v, by rw [hl, hs]; simp⟩

/-! ### Characterizing the filtering loop -/

theorem filterLoop_spec (cond : FilterCondition) (data : List Row) :
    ∀ acc, filterLoop cond acc data =
      (acc.1 ++ data.filter (rowMatches cond), acc.2 || data.any (rowMatches cond)) := by
  induction data with
  | nil => intro acc; simp [filterLoop]
  | cons row rest ih =>
    intro acc
    rw [filterLoop, ih]
    by_cases h : rowMatches cond row
    · simp [h, List.filter_cons, List.any_cons]
    · simp [h, List.filter_cons, List.any_cons, Bool.or_assoc]

theorem applyFallback_of_matches (cond : FilterCondition) (data : List Row) :
    applyFallback cond data (data.filter (rowMatches cond)) (data.any (rowMatches cond)) =
      data.filter (rowMatches cond) := by
  by_cases hany : data.any (rowMatches cond) = true
  · simp [applyFallback, hany]
  · rw [Bool.not_eq_true] at hany
    have hfil : (data.filter (rowMatches cond)).isEmpty = true := by
      cases hlist : data.filter (rowMatches cond) with
      | nil => rfl
      | cons r rs =>
        have hr : r ∈ data.filter (rowMatches cond) := by
          rw [hlist]; exact List.mem_cons_self r rs
        rw [List.mem_filter] at hr
        rw [List.any_eq_true.mpr ⟨r, hr.1, hr.2⟩] at hany
        cases hany
    simp [applyFallback, hany, hfil]

theorem fromString_ok_some_nonblank {s : String} {cond : FilterCondition}
    (h : FilterCondition.fromString s = .ok (some cond)) : (pyStrip s.data).isEmpty = false := by
  by_contra hcontra
  rw [Bool.not_eq_false] at hcontra
  rw [FilterCondition.fromString] at h
  simp only [hcontra, if_true] at h
  cases h

/-- The definitive shape of a successful `filter_data` call on a parsed
condition and a non-empty dataset whose first row has the column: the result
is exactly the rows matching the per-row decision, in order. -/
theorem filterData_eq_filter {s : String} {cond : FilterCondition} (r : Row) (rest : List Row)
    (hp : FilterCondition.fromString s = .ok (some cond))
    (hcol : cond.column ∈ rowKeys r) :
    filterData (r :: rest) (some s) = .ok ((r :: rest).filter (rowMatches cond)) := by
  rw [filterData]
  rw [fromString_ok_some_nonblank hp]
  simp only [Bool.false_eq_true, if_false, hp]
  have hcontains : (rowKeys (r :: rest).head!).contains cond.column = true := by
    show (rowKeys r).contains cond.column = true
    exact List.elem_eq_true_of_mem hcol
  simp only [List.isEmpty_cons, Bool.false_eq_true, if_false, hcontains, Bool.not_true]
  rw [filterLoop_spec]
  simp only [List.nil_append, Bool.false_or]
  exact congrArg Except.ok (applyFallback_of_matches cond (r :: rest))

/-! ### Characterizing the aggregation value collection -/

/-- The cells of a column that successfully coerce to a number, in dataset
order (the survivors of §4.4). -/
def coercedValues (column : String) (data : List Row) : List ℚ :=
  data.filterMap (fun r =>
    match r.lookup column with
    | some (some s) => pyFloat? s
    | _ => none)

theorem pyFloat?_nonblank {s : String} {q : ℚ} (h : pyFloat? s = some q) :
    (pyStrip s.data).isEmpty = false := by
  rw [pyFloat?] at h
  cases hstrip : pyStrip s.data with
  | nil => rw [hstrip] at h; cases h
  | cons c cs => simp

theorem collectValues_fst (column : String) (data : List Row) :
    ∀ acc, (collectValues column acc data).1 = acc.1 ++ coercedValues column data := by
  induction data with
  | nil => intro acc; simp [collectValues, coercedValues]
  | cons row rest ih =>
    intro acc
    rw [collectValues, ih]
    cases hl : row.lookup column with
    | none => simp [coercedValues, List.filterMap_cons, hl]
    | some cell =>
      cases cell with
      | none => simp [coercedValues, List.filterMap_cons, hl]
      | some s =>
        cases hq : pyFloat? s with
        | none =>
          by_cases hblank : (pyStrip s.data).isEmpty
          · simp [coercedValues, List.filterMap_cons, hl, hq, hblank]
          · simp only [Bool.not_eq_true] at hblank
            simp [coercedValues, List.filterMap_cons, hl, hq, hblank]
        | some q =>
          simp [coercedValues, List.filterMap_cons, hl, hq, pyFloat?_nonblank hq]

/-! ### Folded minimum and maximum -/

theorem foldl_min_spec (l : List ℚ) : ∀ v : ℚ,
    (l.foldl Min.min v = v ∨ l.foldl Min.min v ∈ l) ∧
    l.foldl Min.min v ≤ v ∧ ∀ x ∈ l, l.foldl Min.min v ≤ x := by
  induction l with
  | nil => intro v; simp
  | cons a as ih =>
    intro v
    rw [List.foldl_cons]
    rcases ih (Min.min v a) with ⟨hmem, hle, hall⟩
    refine ⟨?_, ?_, ?_⟩
    · rcases hmem with h | h
      · rcases min_cases v a with ⟨heq, _⟩ | ⟨heq, _⟩
        · exact Or.inl (h.trans heq)
        · exact Or.inr (by rw [h, heq]; exact List.mem_cons_self a as)
      · exact Or.inr (List.mem_cons_of_mem a h)
    · exact hle.trans (min_le_left v a)
    · intro x hx
      rcases List.mem_cons.mp hx with rfl | hx'
      · exact hle.trans (min_le_right v x)
      · exact hall x hx'

theorem foldl_max_spec (l : List ℚ) : ∀ v : ℚ,
    (l.foldl Max.max v = v ∨ l.foldl Max.max v ∈ l) ∧
    v ≤ l.foldl Max.max v ∧ ∀ x ∈ l, x ≤ l.foldl Max.max v := by
  induction l with
  | nil => intro v; simp
  | cons a as ih =>
    intro v
    rw [List.foldl_cons]
    rcases ih (Max.max v a) with ⟨hmem, hle, hall⟩
    refine ⟨?_, ?_, ?_⟩
    · rcases hmem with h | h
      · rcases max_cases v a with ⟨heq, _⟩ | ⟨heq, _⟩
        · exact Or.inl (h.trans heq)
        · exact Or.inr (by rw [h, heq]; exact List.mem_cons_self a as)
      · exact Or.inr (List.mem_cons_of_mem a h)
    · exact (le_max_left v a).trans hle
    · intro x hx
      rcases List.mem_cons.mp hx with rfl | hx'
      · exact (le_max_right v x).trans hle
      · exact hall x hx'

/-! ### Stability and idempotence of the key-based sort -/

theorem perm_any_eq {α : Type} (f : α → Bool) {l l' : List α} (h : l.Perm l') :
    l.any f = l'.any f := by
  have hiff : (l.any f = true) ↔ (l'.any f = true) := by
    rw [List.any_eq_true, List.any_eq_true]
    exact ⟨fun ⟨x, hx, hf⟩ => ⟨x, h.mem_iff.mp hx, hf⟩,
      fun ⟨x, hx, hf⟩ => ⟨x, h.mem_iff.mpr hx, hf⟩⟩
  cases hl : l.any f
  · cases hl' : l'.any f
    · rfl
    · exact absurd (hl ▸ hiff.mpr hl') (by simp)
  · exact (hiff.mp hl).symm

theorem perm_all_eq {α : Type} (f : α → Bool) {l l' : List α} (h : l.Perm l') :
    l.all f = l'.all f := by
  have hiff : (l.all f = true) ↔ (l'.all f = true) := by
    rw [List.all_eq_true, List.all_eq_true]
    exact ⟨fun hall x hx => hall x (h.mem_iff.mpr hx),
      fun hall x hx => hall x (h.mem_iff.mp hx)⟩
  cases hl : l.all f
  · cases hl' : l'.all f
    · rfl
    · exact absurd (hl ▸ hiff.mpr hl') (by simp)
  · exact (hiff.mp hl).symm

theorem sortByKey_perm {K : Type} [LinearOrder K] (key : Row → K) (data : List Row) :
    (sortByKey key data).Perm data :=
  List.perm_insertionSort (rowLe key) data

theorem sortByKeyDesc_perm {K : Type} [LinearOrder K] (key : Row → K) (data : List Row) :
    (sortByKeyDesc key data).Perm data :=
  List.perm_insertionSort _ data

theorem filter_orderedInsert {K : Type} [LinearOrder K] (key : Row → K)
    (p : Row → Bool) (hsel : ∀ a b, p a = true → p b = true → key a = key b)
    (x : Row) (t : List Row) :
    (t.orderedInsert (rowLe key) x).filter p =
      if p x then x :: t.filter p else t.filter p := by
  induction t with
  | nil =>
    rw [List.orderedInsert_nil, List.filter_cons, List.filter_nil]
  | cons y ys ih =>
    rw [List.orderedInsert]
    by_cases hle : rowLe key x y
    · rw [if_pos hle, List.filter_cons]
    · rw [if_neg hle, List.filter_cons, ih]
      cases hx : p x with
      | true =>
        have hy : p y = false := by
          cases hpy : p y with
          | false => rfl
          | true => exact absurd (le_of_eq (hsel x y hx hpy)) hle
        simp [hx, hy, List.filter_cons]
      | false => simp [hx, List.filter_cons]

theorem sortByKey_filter_eq {K : Type} [LinearOrder K] (key : Row → K) (data : List Row)
    (p : Row → Bool) (hsel : ∀ a b, p a = true → p b = true → key a = key b) :
    (sortByKey key data).filter p = data.filter p := by
  induction data with
  | nil => rfl
  | cons x xs ih =>
    rw [sortByKey, List.insertionSort]
    rw [filter_orderedInsert key p hsel x]
    rw [sortByKey] at ih
    rw [ih, List.filter_cons]

theorem sortByKey_idem {K : Type} [LinearOrder K] (key : Row → K) (data : List Row) :
    sortByKey key (sortByKey key data) = sortByKey key data := by
  haveI : IsTotal Row (rowLe key) := ⟨fun a b => le_total (key a) (key b)⟩
  haveI : IsTrans Row (rowLe key) :=
    ⟨fun a b c hab hbc => le_trans (α := K) hab hbc⟩
  exact List.Sorted.insertionSort_eq (List.sorted_insertionSort (rowLe key) data)

/-! ### Shape of a successful aggregation -/

theorem aggregateData_shape {s : String} {agg : Aggregation} (r : Row) (rest : List Row)
    (hp : Aggregation.fromString s = .ok agg)
    (hcol : agg.column ∈ rowKeys r) :
    aggregateData (r :: rest) s =
      match coercedValues agg.column (r :: rest) with
      | [] => .ok none
      | v :: vs => .ok (some { operation := agg.operation, column := agg.column,
                               value := aggValue agg.operation v vs,
                               count := (v :: vs).length }) := by
  have hcontains : (rowKeys (r :: rest).head!).contains agg.column = true := by
    show (rowKeys r).contains agg.column = true
    exact List.elem_eq_true_of_mem hcol
  have hcv := collectValues_fst agg.column (r :: rest) ([], 0)
  rw [aggregateData]
  simp only [List.isEmpty_cons, Bool.false_eq_true, if_false, hp, hcontains, Bool.not_true]
  rcases hpair : collectValues agg.column ([], 0) (r :: rest) with ⟨vals, cnt⟩
  rw [hpair] at hcv
  simp only [List.nil_append] at hcv
  subst hcv
  cases hvals : coercedValues agg.column (r :: rest) with
  | nil => simp [hvals]
  | cons v vs => simp [hvals]

/-! ### Small shared helpers -/

theorem isEmpty_false_of_ne_nil {α : Type} {l : List α} (h : l ≠ []) :
    l.isEmpty = false := by
  cases l with
  | nil => exact absurd rfl h
  | cons c cs => rfl

theorem contains_eq_false_of_not_mem {l : List String} {a : String} (h : a ∉ l) :
    l.contains a = false := by
  cases hc : l.contains a
  · rfl
  · exact absurd (List.mem_of_elem_eq_true hc) h

/-- Whether the cell of `col` in a row is numeric whenever it is present (the
hypothesis of the numeric-column claims, in executable form). -/
def numericCell (col : String) (row : Row) : Bool :=
  match row.lookup col with
  | some cell => (cell.bind pyFloat?).isSome
  | none => true

theorem filterData_unknown_col {s : String} {cond : FilterCondition} (r : Row)
    (rest : List Row) (hp : FilterCondition.fromString s = .ok (some cond))
    (hcol : cond.column ∉ rowKeys r) :
    filterData (r :: rest) (some s) =
      .error (.unknownColumn cond.column (((rowKeys r).dedup).insertionSort (· ≤ ·))) := by
  rw [filterData, fromString_ok_some_nonblank hp]
  have hcontains : (rowKeys (r :: rest).head!).contains cond.column = false := by
    show (rowKeys r).contains cond.column = false
    exact contains_eq_false_of_not_mem hcol
  simp only [Bool.false_eq_true, if_false, hp, List.isEmpty_cons, hcontains,
    Bool.not_false, if_true]
  rfl

theorem aggregateData_unknown_col {s : String} {agg : Aggregation} (r : Row)
    (rest : List Row) (hp : Aggregation.fromString s = .ok agg)
    (hcol : agg.column ∉ rowKeys r) :
    aggregateData (r :: rest) s =
      .error (.unknownColumn agg.column (((rowKeys r).dedup).insertionSort (· ≤ ·))) := by
  rw [aggregateData]
  have hcontains : (rowKeys (r :: rest).head!).contains agg.column = false := by
    show (rowKeys r).contains agg.column = false
    exact contains_eq_false_of_not_mem hcol
  simp only [List.isEmpty_cons, Bool.false_eq_true, if_false, hp, hcontains,
    Bool.not_false, if_true]
  rfl

theorem any_eq_not_isEmpty_filter {α : Type} (p : α → Bool) (l : List α) :
    l.any p = !(l.filter p).isEmpty := by
  cases hany : l.any p
  · have hfil : (l.filter p).isEmpty = true := by
      cases hlist : l.filter p with
      | nil => rfl
      | cons r rs =>
        have hr : r ∈ l.filter p := by rw [hlist]; exact List.mem_cons_self r rs
        rw [List.mem_filter] at hr
        rw [List.any_eq_true.mpr ⟨r, hr.1, hr.2⟩] at hany
        cases hany
    rw [hfil]; rfl
  · rcases List.any_eq_true.mp hany with ⟨x, hx, hpx⟩
    have : x ∈ l.filter p := List.mem_filter.mpr ⟨hx, hpx⟩
    rw [isEmpty_false_of_ne_nil (List.ne_nil_of_mem this)]
    rfl

/-! ### Claim theorems -/

/-- C6: parsing round-trips — `"price>100"` parses to the condition
`(price, GREATER, "100")`, `"brand=avg"` parses to the aggregation
`(brand, AVG)`, the empty condition string parses to the null/no-op result,
and the empty aggregation string is a malformed-expression error. -/
theorem claim_C6_parsing_roundtrip :
    FilterCondition.fromString "price>100"
        = .ok (some ⟨"price", FilterOperator.greater, "100"⟩) ∧
    Aggregation.fromString "brand=avg" = .ok ⟨"brand", AggregationOperation.avg⟩ ∧
    FilterCondition.fromString "" = .ok none ∧
    Aggregation.fromString "" = .error QueryError.emptyAggregation := by
  refine ⟨by decide, by decide, by decide, by decide⟩

/-- C8: filtering with a null, empty, or whitespace-only condition never
raises and returns the dataset unchanged in content and order, while the same
empty input is an error for the aggregation parser. -/
theorem claim_C8_blank_condition_noop :
    (∀ data : List Row, filterData data none = .ok data) ∧
    (∀ (data : List Row) (s : String), (pyStrip s.data).isEmpty = true →
        filterData data (some s) = .ok data) ∧
    (∀ s : String, (pyStrip s.data).isEmpty = true →
        Aggregation.fromString s = .error QueryError.emptyAggregation) := by
  refine ⟨fun data => rfl, fun data s h => ?_, fun s h => ?_⟩
  · rw [filterData]; simp [h]
  · rw [Aggregation.fromString]; simp [h]

/-- Witness for C8 at a whitespace-only condition and a one-row dataset. -/
theorem claim_C8_blank_condition_noop_witness :
    (pyStrip "  ".data).isEmpty = true ∧
    filterData [[("a", some "1")]] (some "  ") = .ok [[("a", some "1")]] ∧
    Aggregation.fromString "  " = .error QueryError.emptyAggregation :=
  ⟨by decide, claim_C8_blank_condition_noop.2.1 [[("a", some "1")]] "  " (by decide),
    claim_C8_blank_condition_noop.2.2 "  " (by decide)⟩

/-- C9: on an empty dataset the engines short-circuit before column
validation: filtering with any parsed condition (naming any column at all)
returns the empty list rather than an unknown-column error, and aggregation
returns the absent result before even parsing the aggregation string, so a
malformed aggregation string raises no error on empty data. -/
theorem claim_C9_empty_dataset_short_circuit :
    (∀ (s : String) (cond : FilterCondition),
        FilterCondition.fromString s = .ok (some cond) →
        filterData [] (some s) = .ok []) ∧
    (∀ s : String, aggregateData [] s = .ok none) := by
  constructor
  · intro s cond hp
    rw [filterData, fromString_ok_some_nonblank hp]
    simp [hp]
  · intro s
    rfl

/-- Witness for C9: a condition on a column no dataset has, and a malformed
aggregation string, both on the empty dataset. -/
theorem claim_C9_empty_dataset_short_circuit_witness :
    FilterCondition.fromString "ghost>5"
        = .ok (some ⟨"ghost", FilterOperator.greater, "5"⟩) ∧
    filterData [] (some "ghost>5") = .ok [] ∧
    aggregateData [] "=bad=" = .ok none :=
  ⟨by decide,
    claim_C9_empty_dataset_short_circuit.1 "ghost>5" ⟨"ghost", FilterOperator.greater, "5"⟩
      (by decide),
    claim_C9_empty_dataset_short_circuit.2 "=bad="⟩

/-- C7: any condition string containing one of the compound operators
`<>`, `!=`, `<=`, `>=`, `==` is rejected with an error naming an offending
compound token actually present in the string; and any aggregation string
whose (present, non-empty) operation part is not one of `avg`, `min`, `max`
(case-insensitively) is rejected with an error naming the offending token and
enumerating the supported operations. -/
theorem claim_C7_unsupported_tokens :
    (∀ s : String, (∃ op ∈ invalidOperators, hasSub s op = true) →
      ∃ op ∈ invalidOperators, hasSub s op = true ∧
        FilterCondition.fromString s =
          .error (.unsupportedOperator op supportedOperators)) ∧
    (∀ (s : String) (i : Nat),
      hasSubL s.data ['='] = true →
      findCharIdx s.data '=' = some i →
      (pyStrip (s.data.take i)).isEmpty = false →
      (pyStrip (s.data.drop (i + 1))).isEmpty = false →
      pyLower (String.mk (pyStrip (s.data.drop (i + 1)))) ∉ supportedOperations →
      Aggregation.fromString s =
        .error (.unsupportedOperation (String.mk (pyStrip (s.data.drop (i + 1))))
          supportedOperations)) := by
  constructor
  · rintro s ⟨op, hmem, hsub⟩
    have hprops : op.data ≠ [] ∧ op.data.all (fun c => !c.isWhitespace) = true := by
      simp only [invalidOperators, List.mem_cons, List.not_mem_nil, or_false] at hmem
      rcases hmem with rfl | rfl | rfl | rfl | rfl <;> exact ⟨by decide, by decide⟩
    have hstrip : hasSubL (pyStrip s.data) op.data = true :=
      hasSubL_pyStrip s.data hprops.1 hprops.2 hsub
    have hne : (pyStrip s.data).isEmpty = false :=
      isEmpty_false_of_ne_nil (hasSubL_ne_nil hprops.1 hstrip)
    have hfind : (invalidOperators.find? (fun o => hasSubL (pyStrip s.data) o.data)).isSome :=
      List.find?_isSome.mpr ⟨op, hmem, hstrip⟩
    rcases Option.isSome_iff_exists.mp hfind with ⟨op2, hfind2⟩
    have hp2 : hasSubL (pyStrip s.data) op2.data = true := by
      have := List.find?_some hfind2
      simpa using this
    refine ⟨op2, List.mem_of_find?_eq_some hfind2, hasSubL_of_pyStrip hp2, ?_⟩
    rw [FilterCondition.fromString]
    simp only [hne, Bool.false_eq_true, if_false, hfind2]
  · intro s i hsep hfind hcolpart hoppart hlow
    have hne : (pyStrip s.data).isEmpty = false :=
      isEmpty_false_of_ne_nil (hasSubL_ne_nil (by decide)
        (hasSubL_pyStrip s.data (by decide) (by decide) hsep))
    simp only [supportedOperations, List.mem_cons, List.mem_singleton, not_or,
      List.not_mem_nil] at hlow
    rw [Aggregation.fromString]
    simp only [hne, Bool.false_eq_true, if_false, hsep, Bool.not_true, findCharIdx] at *
    rw [show s.data.findIdx? (· == '=') = some i from hfind]
    simp only [hcolpart, Bool.false_eq_true, if_false, hoppart]
    rw [if_neg hlow.1, if_neg hlow.2.1, if_neg hlow.2.2.1]

/-- Witness for C7 at `"age<>25"` and `"col=invalid_op"`. -/
theorem claim_C7_unsupported_tokens_witness :
    (∃ op ∈ invalidOperators, hasSub "age<>25" op = true ∧
      FilterCondition.fromString "age<>25" =
        .error (.unsupportedOperator op supportedOperators)) ∧
    Aggregation.fromString "col=invalid_op" =
      .error (.unsupportedOperation "invalid_op" supportedOperations) := by
  constructor
  · exact claim_C7_unsupported_tokens.1 "age<>25" ⟨"<>", by decide, by decide⟩
  · have h := claim_C7_unsupported_tokens.2 "col=invalid_op" 3 (by decide) (by decide)
      (by decide) (by decide) (by decide)
    exact h.trans (by decide)

/-- C5: a parsed filter condition or aggregation referencing a column missing
from the first row's key set fails with an unknown-column error carrying the
sorted list of available columns; and when the column is in the first row's
key set the call succeeds regardless of the remaining rows — the check is made
once per call against the first row, not per row. -/
theorem claim_C5_unknown_column_check :
    (∀ (r : Row) (rest : List Row) (s : String) (cond : FilterCondition),
        FilterCondition.fromString s = .ok (some cond) →
        cond.column ∉ rowKeys r →
        filterData (r :: rest) (some s) =
          .error (.unknownColumn cond.column
            (((rowKeys r).dedup).insertionSort (· ≤ ·)))) ∧
    (∀ (r : Row) (rest : List Row) (s : String) (cond : FilterCondition),
        FilterCondition.fromString s = .ok (some cond) →
        cond.column ∈ rowKeys r →
        filterData (r :: rest) (some s) = .ok ((r :: rest).filter (rowMatches cond))) ∧
    (∀ (r : Row) (rest : List Row) (s : String) (agg : Aggregation),
        Aggregation.fromString s = .ok agg →
        agg.column ∉ rowKeys r →
        aggregateData (r :: rest) s =
          .error (.unknownColumn agg.column
            (((rowKeys r).dedup).insertionSort (· ≤ ·)))) ∧
    (∀ (r : Row) (rest : List Row) (s : String) (agg : Aggregation),
        Aggregation.fromString s = .ok agg →
        agg.column ∈ rowKeys r →
        ∃ res, aggregateData (r :: rest) s = .ok res) := by
  refine ⟨fun r rest s cond hp hcol => filterData_unknown_col r rest hp hcol,
    fun r rest s cond hp hcol => filterData_eq_filter r rest hp hcol,
    fun r rest s agg hp hcol => aggregateData_unknown_col r rest hp hcol,
    fun r rest s agg hp hcol => ?_⟩
  rw [aggregateData_shape r rest hp hcol]
  cases coercedValues agg.column (r :: rest) with
  | nil => exact ⟨none, rfl⟩
  | cons v vs => exact ⟨_, rfl⟩

/-- Witness for C5: a two-column row; the condition `b>1` and aggregation
`b=avg` name a missing column (sorted availability `["a", "c"]`), while `c>1`
and `c=avg` succeed even though the second row lacks `c`. -/
theorem claim_C5_unknown_column_check_witness :
    FilterCondition.fromString "b>1"
        = .ok (some ⟨"b", FilterOperator.greater, "1"⟩) ∧
    "b" ∉ rowKeys [("c", some "2"), ("a", some "1")] ∧
    filterData [[("c", some "2"), ("a", some "1")], [("a", some "3")]] (some "b>1") =
      .error (.unknownColumn "b" ["a", "c"]) ∧
    filterData [[("c", some "2"), ("a", some "1")], [("a", some "3")]] (some "c>1") =
      .ok [[("c", some "2"), ("a", some "1")]] ∧
    aggregateData [[("c", some "2"), ("a", some "1")], [("a", some "3")]] "b=avg" =
      .error (.unknownColumn "b" ["a", "c"]) ∧
    ∃ res, aggregateData [[("c", some "2"), ("a", some "1")], [("a", some "3")]] "c=avg" =
      .ok res := by
  refine ⟨by with_unfolding_all decide, by with_unfolding_all decide, ?_, ?_, ?_, ?_⟩
  · exact (claim_C5_unknown_column_check.1 [("c", some "2"), ("a", some "1")]
      [[("a", some "3")]] "b>1" ⟨"b", FilterOperator.greater, "1"⟩ (by with_unfolding_all decide)
      (by with_unfolding_all decide)).trans (by with_unfolding_all decide)
  · exact (claim_C5_unknown_column_check.2.1 [("c", some "2"), ("a", some "1")]
      [[("a", some "3")]] "c>1" ⟨"c", FilterOperator.greater, "1"⟩ (by with_unfolding_all decide)
      (by with_unfolding_all decide)).trans (by with_unfolding_all decide)
  · exact (claim_C5_unknown_column_check.2.2.1 [("c", some "2"), ("a", some "1")]
      [[("a", some "3")]] "b=avg" ⟨"b", AggregationOperation.avg⟩ (by with_unfolding_all decide)
      (by with_unfolding_all decide)).trans (by with_unfolding_all decide)
  · exact claim_C5_unknown_column_check.2.2.2 [("c", some "2"), ("a", some "1")]
      [[("a", some "3")]] "c=avg" ⟨"c", AggregationOperation.avg⟩ (by with_unfolding_all decide) (by with_unfolding_all decide)

/-- C4: the comparison type is decided per row — when both the cell and the
condition's value parse as numbers the decision is the numeric comparison;
when the cell parses but the value does not, the decision falls back to the
string comparison for that row; and a null or missing cell never matches any
operator, evaluating to false instead of an error. -/
theorem claim_C4_per_row_comparison :
    (∀ (cond : FilterCondition) (row : Row) (cs : String) (q f : ℚ),
        row.lookup cond.column = some (some cs) →
        pyFloat? cs = some q → pyFloat? cond.value = some f →
        rowMatches cond row = compareNumeric q cond.operator f) ∧
    (∀ (cond : FilterCondition) (row : Row) (cs : String) (q : ℚ),
        row.lookup cond.column = some (some cs) →
        pyFloat? cs = some q → pyFloat? cond.value = none →
        rowMatches cond row = compareStrings (some cs) cond.operator cond.value) ∧
    (∀ (cond : FilterCondition) (row : Row),
        row.lookup cond.column = some none → rowMatches cond row = false) ∧
    (∀ (op : FilterOperator) (v : String), compareStrings none op v = false) := by
  refine ⟨fun cond row cs q f h1 h2 h3 => ?_, fun cond row cs q h1 h2 h3 => ?_,
    fun cond row h1 => ?_, fun op v => rfl⟩
  · rw [rowMatches, h1]
    simp [h2, h3]
  · rw [rowMatches, h1]
    simp [h2, h3]
  · rw [rowMatches, h1]
    rfl

/-- Witness for C4: a row with a numeric cell compared against a numeric and
a non-numeric value, and a row with a null cell. -/
theorem claim_C4_per_row_comparison_witness :
    rowMatches ⟨"n", FilterOperator.greater, "2"⟩ [("n", some "10")] =
      compareNumeric 10 FilterOperator.greater 2 ∧
    rowMatches ⟨"n", FilterOperator.greater, "x"⟩ [("n", some "10")] =
      compareStrings (some "10") FilterOperator.greater "x" ∧
    rowMatches ⟨"n", FilterOperator.equal, "10"⟩ [("n", none)] = false ∧
    compareStrings none FilterOperator.equal "10" = false := by
  refine ⟨?_, ?_, ?_, ?_⟩
  · exact claim_C4_per_row_comparison.1 ⟨"n", FilterOperator.greater, "2"⟩
      [("n", some "10")] "10" 10 2 (by with_unfolding_all decide) (by with_unfolding_all decide) (by with_unfolding_all decide)
  · exact claim_C4_per_row_comparison.2.1 ⟨"n", FilterOperator.greater, "x"⟩
      [("n", some "10")] "10" 10 (by with_unfolding_all decide) (by with_unfolding_all decide) (by with_unfolding_all decide)
  · exact claim_C4_per_row_comparison.2.2.1 ⟨"n", FilterOperator.equal, "10"⟩
      [("n", none)] (by with_unfolding_all decide)
  · exact claim_C4_per_row_comparison.2.2.2 FilterOperator.equal "10"

/-- C1: for a condition `col>v` over a column whose present cells are all
numeric and a numeric threshold, a successful filter returns exactly the rows
whose numeric cell exceeds `v`: every returned row satisfies
`numeric(row[col]) > v`, and every dataset row not returned lacks the column,
fails numeric coercion, or satisfies `numeric(row[col]) <= v`. -/
theorem claim_C1_numeric_filter_sound (ds l : List Row) (s col vs : String) (v : ℚ)
    (hp : FilterCondition.fromString s = .ok (some ⟨col, FilterOperator.greater, vs⟩))
    (hv : pyFloat? vs = some v)
    (hnum : ∀ row ∈ ds, numericCell col row = true)
    (h : filterData ds (some s) = .ok l) :
    (∀ row ∈ l, ∃ q, getNumeric row col = some q ∧ v < q) ∧
    (∀ row ∈ ds, row ∉ l →
        row.lookup col = none ∨ getNumeric row col = none ∨
        ∃ q, getNumeric row col = some q ∧ q ≤ v) := by
  cases ds with
  | nil =>
    rw [filterData, fromString_ok_some_nonblank hp] at h
    simp only [Bool.false_eq_true, if_false, hp, List.isEmpty_nil, if_true] at h
    injection h with hl
    subst hl
    exact ⟨fun row hrow => absurd hrow (List.not_mem_nil row),
      fun row hrow _ => absurd hrow (List.not_mem_nil row)⟩
  | cons r rest =>
    by_cases hcol : col ∈ rowKeys r
    · rw [filterData_eq_filter r rest hp hcol] at h
      injection h with hl
      subst hl
      constructor
      · intro row hrow
        rcases List.mem_filter.mp hrow with ⟨hmem, hmatch⟩
        have hcell := hnum row hmem
        rw [numericCell] at hcell
        rw [rowMatches] at hmatch
        cases hl : row.lookup col with
        | none =>
          simp only [hl] at hmatch
          cases hmatch
        | some cell =>
          simp only [hl] at hcell hmatch
          cases cell with
          | none => simp at hcell
          | some cstr =>
            simp only [Option.some_bind] at hcell hmatch
            cases hq : pyFloat? cstr with
            | none => rw [hq] at hcell; simp at hcell
            | some q =>
              simp only [hq, hv, compareNumeric, decide_eq_true_eq] at hmatch
              exact ⟨q, by simp [getNumeric, hl, hq], hmatch⟩
      · intro row hmem hnotl
        have hnm : rowMatches ⟨col, FilterOperator.greater, vs⟩ row = false := by
          cases hmr : rowMatches ⟨col, FilterOperator.greater, vs⟩ row
          · rfl
          · exact absurd (List.mem_filter.mpr ⟨hmem, hmr⟩) hnotl
        have hcell := hnum row hmem
        rw [numericCell] at hcell
        rw [rowMatches] at hnm
        cases hl : row.lookup col with
        | none => exact Or.inl rfl
        | some cell =>
          simp only [hl] at hcell hnm
          cases cell with
          | none => simp at hcell
          | some cstr =>
            simp only [Option.some_bind] at hcell hnm
            cases hq : pyFloat? cstr with
            | none => rw [hq] at hcell; simp at hcell
            | some q =>
              refine Or.inr (Or.inr ⟨q, by simp [getNumeric, hl, hq], ?_⟩)
              simp only [hq, hv, compareNumeric, decide_eq_false_iff_not] at hnm
              exact le_of_not_lt hnm
    · rw [filterData_unknown_col r rest hp hcol] at h
      cases h

/-- Witness for C1: the condition `n>2` over the numeric column of
`[{n: "1"}, {n: "3"}]` keeps exactly the row with `3`. -/
theorem claim_C1_numeric_filter_sound_witness :
    FilterCondition.fromString "n>2"
        = .ok (some ⟨"n", FilterOperator.greater, "2"⟩) ∧
    pyFloat? "2" = some 2 ∧
    (∀ row ∈ [[("n", some "1")], [("n", some "3")]], numericCell "n" row = true) ∧
    filterData [[("n", some "1")], [("n", some "3")]] (some "n>2") =
      .ok [[("n", some "3")]] ∧
    ((∀ row ∈ [[("n", some "3")]], ∃ q, getNumeric row "n" = some q ∧ 2 < q) ∧
     (∀ row ∈ [[("n", some "1")], [("n", some "3")]], row ∉ [[("n", some "3")]] →
        row.lookup "n" = none ∨ getNumeric row "n" = none ∨
        ∃ q, getNumeric row "n" = some q ∧ q ≤ 2)) :=
  ⟨by decide, by with_unfolding_all decide, by with_unfolding_all decide,
    by with_unfolding_all decide,
    claim_C1_numeric_filter_sound [[("n", some "1")], [("n", some "3")]]
      [[("n", some "3")]] "n>2" "n" "2" 2 (by decide) (by with_unfolding_all decide)
      (by with_unfolding_all decide) (by with_unfolding_all decide)⟩

/-- C10: the backwards-compatibility fallback of `filter_data` is unreachable:
after the loop, `has_matches` is true exactly when the accumulated result is
non-empty, the accumulated result is exactly the rows matching the condition,
and applying the fallback leaves that result untouched — the filter never
silently downgrades a non-empty match set to an empty result. -/
theorem claim_C10_fallback_unreachable (cond : FilterCondition) (data : List Row) :
    (filterLoop cond ([], false) data).2 =
      !((filterLoop cond ([], false) data).1).isEmpty ∧
    (filterLoop cond ([], false) data).1 = data.filter (rowMatches cond) ∧
    applyFallback cond data (filterLoop cond ([], false) data).1
        (filterLoop cond ([], false) data).2 = data.filter (rowMatches cond) := by
  have hspec := filterLoop_spec cond data ([], false)
  have h1 : (filterLoop cond ([], false) data).1 = data.filter (rowMatches cond) := by
    rw [hspec]; simp
  have h2 : (filterLoop cond ([], false) data).2 = data.any (rowMatches cond) := by
    rw [hspec]; simp
  refine ⟨?_, h1, ?_⟩
  · rw [h1, h2]
    exact any_eq_not_isEmpty_filter _ _
  · rw [h1, h2]
    exact applyFallback_of_matches cond data

/-- C2: for a non-empty dataset and a parsed aggregation over a column of the
first row, the result is absent exactly when no cell of the column coerces to
a number; otherwise the result counts the surviving values and its value is
their arithmetic mean (AVG), a minimum (MIN), or a maximum (MAX) — non-numeric
cells are skipped without failing. -/
theorem claim_C2_aggregate_semantics (r : Row) (rest : List Row) (s : String)
    (agg : Aggregation)
    (hp : Aggregation.fromString s = .ok agg)
    (hcol : agg.column ∈ rowKeys r) :
    (aggregateData (r :: rest) s = .ok none ↔
       coercedValues agg.column (r :: rest) = []) ∧
    (∀ v vt, coercedValues agg.column (r :: rest) = v :: vt →
       ∃ res, aggregateData (r :: rest) s = .ok (some res) ∧
         res.operation = agg.operation ∧ res.column = agg.column ∧
         res.count = (v :: vt).length ∧
         (agg.operation = .avg →
            res.value * ((v :: vt).length : ℚ) = (v :: vt).sum) ∧
         (agg.operation = .min →
            res.value ∈ v :: vt ∧ ∀ x ∈ v :: vt, res.value ≤ x) ∧
         (agg.operation = .max →
            res.value ∈ v :: vt ∧ ∀ x ∈ v :: vt, x ≤ res.value)) := by
  have hshape := aggregateData_shape r rest hp hcol
  constructor
  · cases hcv : coercedValues agg.column (r :: rest) with
    | nil => rw [hshape, hcv]; simp
    | cons v vt => rw [hshape, hcv]; simp
  · intro v vt hcv
    rw [hshape, hcv]
    refine ⟨_, rfl, rfl, rfl, rfl, ?_, ?_, ?_⟩
    · intro hop
      rw [hop]
      show (v + vt.sum) / (1 + (vt.length : ℚ)) * ((v :: vt).length : ℚ) = (v :: vt).sum
      have hd : ((v :: vt).length : ℚ) = 1 + (vt.length : ℚ) := by
        rw [List.length_cons]; push_cast; ring
      have hnz : (1 + (vt.length : ℚ)) ≠ 0 := by positivity
      rw [hd, div_mul_cancel₀ _ hnz, List.sum_cons]
    · intro hop
      rw [hop]
      show vt.foldl Min.min v ∈ v :: vt ∧ ∀ x ∈ v :: vt, vt.foldl Min.min v ≤ x
      rcases foldl_min_spec vt v with ⟨hmem, hle, hall⟩
      constructor
      · rcases hmem with h | h
        · rw [h]; exact List.mem_cons_self v vt
        · exact List.mem_cons_of_mem v h
      · intro x hx
        rcases List.mem_cons.mp hx with rfl | hx'
        · exact hle
        · exact hall x hx'
    · intro hop
      rw [hop]
      show vt.foldl Max.max v ∈ v :: vt ∧ ∀ x ∈ v :: vt, x ≤ vt.foldl Max.max v
      rcases foldl_max_spec vt v with ⟨hmem, hle, hall⟩
      constructor
      · rcases hmem with h | h
        · rw [h]; exact List.mem_cons_self v vt
        · exact List.mem_cons_of_mem v h
      · intro x hx
        rcases List.mem_cons.mp hx with rfl | hx'
        · exact hle
        · exact hall x hx'

/-- Witness for C2 at the spec's example: on `[{n:"1"},{n:"2"},{n:"x"}]` the
aggregation `n=max` yields value `2` with count `2`, the non-numeric cell
being skipped. -/
theorem claim_C2_aggregate_semantics_witness :
    Aggregation.fromString "n=max" = .ok ⟨"n", AggregationOperation.max⟩ ∧
    coercedValues "n" [[("n", some "1")], [("n", some "2")], [("n", some "x")]] = [1, 2] ∧
    aggregateData [[("n", some "1")], [("n", some "2")], [("n", some "x")]] "n=max" =
      .ok (some ⟨AggregationOperation.max, "n", 2, 2⟩) ∧
    (∃ res, aggregateData [[("n", some "1")], [("n", some "2")], [("n", some "x")]] "n=max"
        = .ok (some res) ∧
      res.operation = AggregationOperation.max ∧ res.column = "n" ∧
      res.count = ([(1 : ℚ), 2]).length ∧
      (AggregationOperation.max = .avg →
         res.value * (([(1 : ℚ), 2]).length : ℚ) = ([(1 : ℚ), 2]).sum) ∧
      (AggregationOperation.max = .min →
         res.value ∈ [(1 : ℚ), 2] ∧ ∀ x ∈ [(1 : ℚ), 2], res.value ≤ x) ∧
      (AggregationOperation.max = .max →
         res.value ∈ [(1 : ℚ), 2] ∧ ∀ x ∈ [(1 : ℚ), 2], x ≤ res.value)) :=
  ⟨by decide, by with_unfolding_all decide, by with_unfolding_all decide,
    (claim_C2_aggregate_semantics [("n", some "1")]
      [[("n", some "2")], [("n", some "x")]] "n=max" ⟨"n", AggregationOperation.max⟩
      (by decide) (by decide)).2 1 [2] (by with_unfolding_all decide)⟩

/-- C3: for every dataset and every successfully applied ascending sort
specification, sorting is stable — for each key value, the rows carrying that
key appear in the output in their original relative order — and idempotent:
sorting the sorted output again returns it unchanged. -/
theorem claim_C3_sort_stable_idempotent (ds l : List Row) (s c : String)
    (hp : parseSortSpec s = .ok ⟨c, SortDirection.asc⟩)
    (h : sortData ds s = .ok l) :
    sortData l s = .ok l ∧
    (numericMode ds c = true → ∀ k : ℚ,
        l.filter (fun row => decide (numKey c row = k)) =
          ds.filter (fun row => decide (numKey c row = k))) ∧
    (numericMode ds c = false → ∀ k : String,
        l.filter (fun row => decide (strKey c row = k)) =
          ds.filter (fun row => decide (strKey c row = k))) := by
  rw [sortData, hp] at h
  by_cases hcol : hasColumn ds c = true
  · simp only [hcol, Bool.not_true, Bool.false_eq_true, if_false] at h
    cases hmode : numericMode ds c with
    | true =>
      rw [hmode] at h
      have hl : sortByKey (numKey c) ds = l := Except.ok.inj h
      subst hl
      refine ⟨?_,
        fun _ k => sortByKey_filter_eq (numKey c) ds (fun row => decide (numKey c row = k))
          (fun a b ha hb => by
            rw [decide_eq_true_eq] at ha hb
            rw [ha, hb]),
        fun hfalse => absurd hfalse (by simp)⟩
      rw [sortData, hp]
      have hcol2 : hasColumn (sortByKey (numKey c) ds) c = true := by
        rw [hasColumn] at hcol ⊢
        rw [perm_any_eq _ (sortByKey_perm (numKey c) ds)]
        exact hcol
      have hmode2 : numericMode (sortByKey (numKey c) ds) c = true := by
        rw [numericMode] at hmode ⊢
        rw [perm_all_eq _ (sortByKey_perm (numKey c) ds)]
        exact hmode
      simp only [hcol2, Bool.not_true, Bool.false_eq_true, if_false, hmode2]
      rw [sortByKey_idem]
    | false =>
      rw [hmode] at h
      have hl : sortByKey (strKey c) ds = l := Except.ok.inj h
      subst hl
      refine ⟨?_, fun htrue => absurd htrue (by simp),
        fun _ k => sortByKey_filter_eq (strKey c) ds (fun row => decide (strKey c row = k))
          (fun a b ha hb => by
            rw [decide_eq_true_eq] at ha hb
            rw [ha, hb])⟩
      rw [sortData, hp]
      have hcol2 : hasColumn (sortByKey (strKey c) ds) c = true := by
        rw [hasColumn] at hcol ⊢
        rw [perm_any_eq _ (sortByKey_perm (strKey c) ds)]
        exact hcol
      have hmode2 : numericMode (sortByKey (strKey c) ds) c = false := by
        rw [numericMode] at hmode ⊢
        rw [perm_all_eq _ (sortByKey_perm (strKey c) ds)]
        exact hmode
      simp only [hcol2, Bool.not_true, Bool.false_eq_true, if_false, hmode2]
      rw [sortByKey_idem]
  · rw [Bool.not_eq_true] at hcol
    simp only [hcol, Bool.not_false, if_true] at h
    cases h

/-- Witness for C3: sorting `[{n:"2"}, {n:"1"}]` by `n=asc` succeeds, and the
sorted output is a fixed point of the same sort with the stability properties
instantiated. -/
theorem claim_C3_sort_stable_idempotent_witness :
    parseSortSpec "n=asc" = .ok ⟨"n", SortDirection.asc⟩ ∧
    sortData [[("n", some "2")], [("n", some "1")]] "n=asc" =
      .ok [[("n", some "1")], [("n", some "2")]] ∧
    (sortData [[("n", some "1")], [("n", some "2")]] "n=asc" =
        .ok [[("n", some "1")], [("n", some "2")]] ∧
      (numericMode [[("n", some "2")], [("n", some "1")]] "n" = true → ∀ k : ℚ,
          ([[("n", some "1")], [("n", some "2")]] : List Row).filter
              (fun row => decide (numKey "n" row = k)) =
            ([[("n", some "2")], [("n", some "1")]] : List Row).filter
              (fun row => decide (numKey "n" row = k))) ∧
      (numericMode [[("n", some "2")], [("n", some "1")]] "n" = false → ∀ k : String,
          ([[("n", some "1")], [("n", some "2")]] : List Row).filter
              (fun row => decide (strKey "n" row = k)) =
            ([[("n", some "2")], [("n", some "1")]] : List Row).filter
              (fun row => decide (strKey "n" row = k)))) :=
  ⟨by decide, by with_unfolding_all decide,
    claim_C3_sort_stable_idempotent [[("n", some "2")], [("n", some "1")]]
      [[("n", some "1")], [("n", some "2")]] "n=asc" "n" (by decide)
      (by with_unfolding_all decide)⟩
